import Mathlib

/-!
# Verification of the `basic-explorer` navigation engine

Shallow embedding of the navigation/state engine of `src/main.rs`:
the directory lister (`FileExplorer::list_files_in_directory`), the
inline path resolution and double-click arbitration of
`FileExplorer::update`, and the navigation state machine
(`Message::FileClicked` / `Refresh` / `GoUp` / `DriveSelected`).

Paths are modelled structurally (an absolute flag plus a component
list), mirroring the `std::path` operations the program uses:
`parent`, `join`, `file_name`, `is_relative`, and `PathBuf` equality.
The filesystem is an explicit parameter (`Fs`): `read_dir` returns the
child names in the OS enumeration order, or `none` on failure, and
`is_dir` / `is_file` are the metadata probes; quantifying over `Fs`
captures every filesystem content and every enumeration order.
-/

/-- A path component, as in `std::path::Component`: either the parent
reference `..` or a normal name.  (The program never builds paths with
`.` components or Windows prefixes, so those are not modelled.) -/
inductive Component where
  | parentDir : Component
  | normal : String → Component
deriving DecidableEq, Repr

/-- A structural model of `PathBuf`: whether the path is absolute, and
its list of components.  Equality is component-wise, as for `PathBuf`. -/
structure RPath where
  absolute : Bool
  components : List Component
deriving DecidableEq, Repr

/-- The synthetic parent marker `PathBuf::from("..")` pushed at
src/main.rs line 48: a relative path with the single `..` component. -/
def parentMarker : RPath := ⟨false, [Component.parentDir]⟩

namespace RPath

/-- `Path::parent`: the path without its final component; `none` for a
bare root or the empty path. -/
def parent (p : RPath) : Option RPath :=
  match p.components with
  | [] => none
  | _ :: _ => some ⟨p.absolute, p.components.dropLast⟩

/-- `Path::join`: an absolute argument replaces the receiver, a
relative one is appended. -/
def join (p q : RPath) : RPath :=
  if q.absolute then q else ⟨p.absolute, p.components ++ q.components⟩

/-- `Path::file_name`: the last component when it is a normal name,
`none` otherwise (in particular `none` for `..`). -/
def file_name (p : RPath) : Option String :=
  match p.components.getLast? with
  | some (Component.normal s) => some s
  | _ => none

/-- `Path::is_relative`. -/
def is_relative (p : RPath) : Bool := !p.absolute

end RPath

/-- A directory-child name, as a one-component relative path: this is
what `entry.path()` joins onto the directory being listed. -/
def childName (s : String) : RPath := ⟨false, [Component.normal s]⟩

/-- Byte-wise comparison of `OsStr` contents, modelled on the
character lists of the two strings. -/
def charsCmp : List Char → List Char → Ordering
  | [], [] => Ordering.eq
  | [], _ :: _ => Ordering.lt
  | _ :: _, [] => Ordering.gt
  | a :: as, b :: bs =>
    if a < b then Ordering.lt
    else if b < a then Ordering.gt
    else charsCmp as bs

/-- `OsStr` comparison for file names. -/
def strCmp (a b : String) : Ordering := charsCmp a.data b.data

/-- `Option<&OsStr>` comparison, as used by
`a.file_name().cmp(&b.file_name())`: `None` sorts before `Some`. -/
def optNameCmp : Option String → Option String → Ordering
  | none, none => Ordering.eq
  | none, some _ => Ordering.lt
  | some _, none => Ordering.gt
  | some a, some b => strCmp a b

/-- The comparator of the `sort_by` closure at src/main.rs lines
57-67, parametrised by the `is_dir` filesystem probe it calls:
directories before files, then `file_name` comparison. -/
def entryCmp (is_dir : RPath → Bool) (a b : RPath) : Ordering :=
  let a_is_dir := is_dir a
  let b_is_dir := is_dir b
  if a_is_dir && !b_is_dir then Ordering.lt
  else if !a_is_dir && b_is_dir then Ordering.gt
  else optNameCmp a.file_name b.file_name

/-- The not-greater relation of `entryCmp`, the order `Vec::sort_by`
establishes. -/
def entryLe (is_dir : RPath → Bool) (a b : RPath) : Bool :=
  match entryCmp is_dir a b with
  | Ordering.gt => false
  | _ => true

/-- The filesystem, as the program observes it: `fs::read_dir`
(child names in enumeration order, `none` on any failure, matching the
`if let Ok(entries)` at line 51) and the `Path::is_dir` /
`Path::is_file` metadata probes. -/
structure Fs where
  read_dir : RPath → Option (List String)
  is_dir : RPath → Bool
  is_file : RPath → Bool

/-- `Vec::sort_by` is a stable sort (a stable merge sort in the Rust
runtime).  On a comparator whose not-greater relation is a total
preorder — `entryLe` is one, proved below — every stable sort produces
the same output, so it is modelled by stable insertion sort, which the
kernel can evaluate on concrete inputs. -/
def sortBy (le : α → α → Bool) (l : List α) : List α :=
  l.insertionSort (fun a b => le a b = true)

/-- The unsorted `files` vector built at src/main.rs lines 45-55: the
`..` marker when the directory has a parent, then the children in the
`read_dir` enumeration order (`entry.path()` is the directory joined
with the child name; a failed `read_dir` contributes nothing). -/
def rawEntries (fs : Fs) (path : RPath) : List RPath :=
  (if (RPath.parent path).isSome then [parentMarker] else []) ++
  (match fs.read_dir path with
   | some names => names.map (fun n => RPath.join path (childName n))
   | none => [])

/-- `FileExplorer::list_files_in_directory` (src/main.rs lines 44-70):
build the raw entry vector, then `sort_by` the entry comparator. -/
def list_files_in_directory (fs : Fs) (path : RPath) : List RPath :=
  sortBy (entryLe fs.is_dir) (rawEntries fs path)

/-- The two outputs of the click-timing arbiter (§4.4 of the design):
`activate` is the double-click signal, `select` the single-click one. -/
inductive ClickResult where
  | activate : ClickResult
  | select : ClickResult
deriving DecidableEq, Repr

/-- `Duration::from_millis(500)` at src/main.rs line 141, in
milliseconds. -/
def doubleClickWindowMs : Nat := 500

/-- The click-timing state machine of `Message::FileClicked`
(src/main.rs lines 137-150), factored out: given `last_click_time` and
the current instant (milliseconds, monotone), emit `activate` exactly
when a previous click exists strictly less than 500 ms ago, and
unconditionally record the new instant. -/
def clickArbiter (last_click_time : Option Nat) (now : Nat) :
    ClickResult × Option Nat :=
  (match last_click_time with
   | some last_click =>
     if now - last_click < doubleClickWindowMs then ClickResult.activate
     else ClickResult.select
   | none => ClickResult.select,
   some now)

/-- The navigation-relevant state of `struct FileExplorer`
(src/main.rs lines 21-35); the widget/button states of the
presentation layer carry no information and are omitted. -/
structure FileExplorer where
  path : RPath
  files : List RPath
  show_drives : Bool
  last_click_time : Option Nat
deriving DecidableEq, Repr

/-- `enum Message` (src/main.rs lines 13-19). -/
inductive Message where
  | FileClicked : RPath → Message
  | Refresh : Message
  | GoUp : Message
  | DriveSelected : RPath → Message
deriving DecidableEq, Repr

/-- The target-path computation at src/main.rs lines 153-159: the
parent marker resolves to the current directory's parent (or the
current directory when it has none), a relative path is joined onto
the current directory, an absolute path stands unchanged. -/
def resolve (path : RPath) (current : RPath) : RPath :=
  if path = parentMarker then
    match RPath.parent current with
    | some p => p
    | none => current
  else if path.is_relative then
    RPath.join current path
  else
    path

/-- `FileExplorer::update` (src/main.rs lines 130-187).  `now` is the
`Instant::now()` reading of the event, in milliseconds.  The second
result is the launch effect: `some p` exactly when `open_file(&p)` was
invoked (the double-click branch at lines 140-147), `none` otherwise. -/
def update (fs : Fs) (now : Nat) (s : FileExplorer) (m : Message) :
    FileExplorer × Option RPath :=
  match m with
  | Message.FileClicked path =>
    let opened :=
      match s.last_click_time with
      | some last_click =>
        if now - last_click < doubleClickWindowMs && fs.is_file path then
          some path
        else none
      | none => none
    let s1 : FileExplorer := { s with last_click_time := some now }
    let target_path := resolve path s1.path
    if fs.is_dir target_path then
      ({ s1 with path := target_path, show_drives := false,
                 files := list_files_in_directory fs target_path }, opened)
    else
      (s1, opened)
  | Message.Refresh =>
    ({ s with files := list_files_in_directory fs s.path }, none)
  | Message.GoUp =>
    match RPath.parent s.path with
    | some parent =>
      ({ s with path := parent, show_drives := false,
                files := list_files_in_directory fs parent }, none)
    | none =>
      ({ s with show_drives := true }, none)
  | Message.DriveSelected drive_path =>
    ({ s with path := drive_path, show_drives := false,
              files := list_files_in_directory fs drive_path }, none)

/-! ### Concrete fixtures

Small filesystems and states used to instantiate the general theorems
(witnesses) and to exhibit counterexamples. -/

/-- The absolute directory `/d`. -/
def dirD : RPath := ⟨true, [Component.normal "d"]⟩

/-- The filesystem root `/`: an absolute path with no components and
hence no parent. -/
def rootPath : RPath := ⟨true, []⟩

/-- `/d/sub`. -/
def subDir : RPath := RPath.join dirD (childName "sub")

/-- `/d/b`. -/
def fileB : RPath := RPath.join dirD (childName "b")

/-- A filesystem where `/d` holds the subdirectory `sub`, but the
metadata probe on the relative path `..` reports "not a directory".
The program evaluates `PathBuf::from("..").is_dir()` against the
process working directory, not against the directory being listed, so
this happens whenever the working directory has vanished (the probe
then fails and `is_dir` returns `false`). -/
def fsMarkerNotDir : Fs where
  read_dir := fun p => if p = dirD then some ["sub"] else none
  is_dir := fun p => p = dirD || p = subDir
  is_file := fun _ => false

/-- The ordinary situation: `/d` holds subdirectory `sub` and plain
file `b`, and the `..` probe reports a directory. -/
def fsMarkerDir : Fs where
  read_dir := fun p => if p = dirD then some ["sub", "b"] else none
  is_dir := fun p => p = parentMarker || p = dirD || p = subDir
  is_file := fun p => p = fileB

/-- A filesystem on which every directory read fails. -/
def fsUnreadable : Fs where
  read_dir := fun _ => none
  is_dir := fun _ => false
  is_file := fun _ => false

/-- `/d` holding children `a` and `b`, enumerated as `b, a`. -/
def fsEnum1 : Fs where
  read_dir := fun p => if p = dirD then some ["b", "a"] else none
  is_dir := fun p => p = parentMarker || p = dirD
  is_file := fun _ => false

/-- The same directory contents as `fsEnum1`, enumerated as `a, b`. -/
def fsEnum2 : Fs where
  read_dir := fun p => if p = dirD then some ["a", "b"] else none
  is_dir := fun p => p = parentMarker || p = dirD
  is_file := fun _ => false

/-- A state browsing `/d`, with a click recorded at t = 100 ms. -/
def stateA : FileExplorer where
  path := dirD
  files := []
  show_drives := false
  last_click_time := some 100

/-- A state browsing the root `/`, with no click recorded. -/
def stateRoot : FileExplorer where
  path := rootPath
  files := [parentMarker]
  show_drives := false
  last_click_time := none

/-! ### Order-theoretic facts about the entry comparator -/

theorem charsCmp_swap : ∀ a b : List Char, charsCmp a b = (charsCmp b a).swap
  | [], [] => rfl
  | [], _ :: _ => rfl
  | _ :: _, [] => rfl
  | a :: as, b :: bs => by
    simp only [charsCmp]
    rcases lt_trichotomy a b with h | h | h
    · rw [if_pos h, if_neg (lt_asymm h), if_pos h]; rfl
    · subst h
      rw [if_neg (lt_irrefl a), if_neg (lt_irrefl a), if_neg (lt_irrefl a),
        if_neg (lt_irrefl a)]
      exact charsCmp_swap as bs
    · rw [if_neg (lt_asymm h), if_pos h, if_pos h]; rfl

theorem charsCmp_eq_iff : ∀ a b : List Char, charsCmp a b = Ordering.eq ↔ a = b
  | [], [] => by simp [charsCmp]
  | [], _ :: _ => by simp [charsCmp]
  | _ :: _, [] => by simp [charsCmp]
  | a :: as, b :: bs => by
    simp only [charsCmp]
    rcases lt_trichotomy a b with h | h | h
    · rw [if_pos h]
      simp only [List.cons.injEq]
      exact ⟨fun hc => absurd hc (by decide), fun hc => absurd hc.1 (ne_of_lt h)⟩
    · subst h
      rw [if_neg (lt_irrefl a), if_neg (lt_irrefl a)]
      simpa using charsCmp_eq_iff as bs
    · rw [if_neg (lt_asymm h), if_pos h]
      simp only [List.cons.injEq]
      exact ⟨fun hc => absurd hc (by decide), fun hc => absurd hc.1 (ne_of_gt h)⟩

theorem charsCmp_le_trans : ∀ a b c : List Char,
    charsCmp a b ≠ Ordering.gt → charsCmp b c ≠ Ordering.gt →
    charsCmp a c ≠ Ordering.gt
  | [], _, [] => fun _ _ => by simp [charsCmp]
  | [], _, _ :: _ => fun _ _ => by simp [charsCmp]
  | _ :: _, [], _ => fun h₁ _ => absurd rfl h₁
  | _ :: _, _ :: _, [] => fun _ h₂ => absurd rfl h₂
  | a :: as, b :: bs, c :: cs => fun h₁ h₂ => by
    simp only [charsCmp] at h₁ h₂ ⊢
    by_cases hab : a < b
    · by_cases hbc : b < c
      · rw [if_pos (lt_trans hab hbc)]; decide
      · by_cases hcb : c < b
        · rw [if_neg hbc, if_pos hcb] at h₂; exact absurd rfl h₂
        · have hbc' : b = c := le_antisymm (not_lt.mp hcb) (not_lt.mp hbc)
          subst hbc'
          rw [if_pos hab]; decide
    · by_cases hba : b < a
      · rw [if_neg hab, if_pos hba] at h₁; exact absurd rfl h₁
      · have hab' : a = b := le_antisymm (not_lt.mp hba) (not_lt.mp hab)
        subst hab'
        rw [if_neg (lt_irrefl a), if_neg (lt_irrefl a)] at h₁
        by_cases hac : a < c
        · rw [if_pos hac]; decide
        · by_cases hca : c < a
          · rw [if_neg hac, if_pos hca] at h₂; exact absurd rfl h₂
          · rw [if_neg hac, if_neg hca] at h₂ ⊢
            exact charsCmp_le_trans as bs cs h₁ h₂

theorem strCmp_swap (a b : String) : strCmp a b = (strCmp b a).swap :=
  charsCmp_swap a.data b.data

theorem strCmp_eq_iff (a b : String) : strCmp a b = Ordering.eq ↔ a = b := by
  rw [strCmp, charsCmp_eq_iff]
  exact ⟨fun h => by cases a; cases b; exact congrArg String.mk h,
    fun h => by rw [h]⟩

theorem strCmp_le_trans (a b c : String) :
    strCmp a b ≠ Ordering.gt → strCmp b c ≠ Ordering.gt →
    strCmp a c ≠ Ordering.gt :=
  charsCmp_le_trans a.data b.data c.data

theorem optNameCmp_swap : ∀ a b : Option String,
    optNameCmp a b = (optNameCmp b a).swap
  | none, none => rfl
  | none, some _ => rfl
  | some _, none => rfl
  | some a, some b => strCmp_swap a b

theorem optNameCmp_eq_iff : ∀ a b : Option String,
    optNameCmp a b = Ordering.eq ↔ a = b
  | none, none => by simp [optNameCmp]
  | none, some b => by simp [optNameCmp]
  | some a, none => by simp [optNameCmp]
  | some a, some b => by simpa [optNameCmp] using strCmp_eq_iff a b

theorem optNameCmp_le_trans : ∀ a b c : Option String,
    optNameCmp a b ≠ Ordering.gt → optNameCmp b c ≠ Ordering.gt →
    optNameCmp a c ≠ Ordering.gt
  | none, _, none => fun _ _ => by simp [optNameCmp]
  | none, _, some _ => fun _ _ => by simp [optNameCmp]
  | some _, none, _ => fun h₁ _ => absurd rfl h₁
  | some _, some _, none => fun _ h₂ => absurd rfl h₂
  | some a, some b, some c => fun h₁ h₂ => strCmp_le_trans a b c h₁ h₂

theorem entryCmp_swap (d : RPath → Bool) (a b : RPath) :
    entryCmp d a b = (entryCmp d b a).swap := by
  simp only [entryCmp]
  cases hda : d a <;> cases hdb : d b <;>
    simp [hda, hdb, optNameCmp_swap a.file_name b.file_name] <;> rfl

theorem entryLe_iff (d : RPath → Bool) (a b : RPath) :
    entryLe d a b = true ↔ entryCmp d a b ≠ Ordering.gt := by
  rw [entryLe]
  cases entryCmp d a b <;> simp

theorem entryLe_total (d : RPath → Bool) (a b : RPath) :
    entryLe d a b = true ∨ entryLe d b a = true := by
  rw [entryLe_iff d a b, entryLe_iff d b a]
  by_cases h : entryCmp d a b = Ordering.gt
  · right
    intro h'
    rw [entryCmp_swap d a b, h'] at h
    exact absurd h (by decide)
  · exact Or.inl h

theorem entryLe_trans (d : RPath → Bool) (a b c : RPath) :
    entryLe d a b = true → entryLe d b c = true → entryLe d a c = true := by
  rw [entryLe_iff d a b, entryLe_iff d b c, entryLe_iff d a c]
  simp only [entryCmp]
  cases hda : d a <;> cases hdb : d b <;> cases hdc : d c <;>
    simp [hda, hdb, hdc] <;>
    exact fun h₁ h₂ => optNameCmp_le_trans _ _ _ h₁ h₂

theorem entryLe_antisymm (d : RPath → Bool) (a b : RPath) :
    entryLe d a b = true → entryLe d b a = true →
    d a = d b ∧ a.file_name = b.file_name := by
  rw [entryLe_iff d a b, entryLe_iff d b a]
  intro h₁ h₂
  have hs := entryCmp_swap d a b
  have heq : entryCmp d a b = Ordering.eq := by
    cases h : entryCmp d b a
    · rw [h] at hs; exact absurd hs h₁
    · rw [h] at hs; exact hs
    · exact absurd h h₂
  revert heq
  simp only [entryCmp]
  cases hda : d a <;> cases hdb : d b <;> simp [hda, hdb] <;>
    exact fun h => (optNameCmp_eq_iff _ _).mp h

/-! ### Structure of a listing -/

theorem sortBy_perm (le : α → α → Bool) (l : List α) :
    List.Perm (sortBy le l) l :=
  List.perm_insertionSort _ l

theorem sortBy_pairwise (le : α → α → Bool)
    (htrans : ∀ a b c, le a b = true → le b c = true → le a c = true)
    (htotal : ∀ a b, le a b = true ∨ le b a = true) (l : List α) :
    (sortBy le l).Pairwise (fun a b => le a b = true) := by
  letI : IsTotal α (fun a b => le a b = true) := ⟨htotal⟩
  letI : IsTrans α (fun a b => le a b = true) := ⟨htrans⟩
  exact List.sorted_insertionSort _ l

theorem list_files_perm (fs : Fs) (path : RPath) :
    List.Perm (list_files_in_directory fs path) (rawEntries fs path) :=
  sortBy_perm _ _

theorem list_files_pairwise (fs : Fs) (path : RPath) :
    (list_files_in_directory fs path).Pairwise
      (fun a b => entryLe fs.is_dir a b = true) :=
  sortBy_pairwise _ (entryLe_trans fs.is_dir) (entryLe_total fs.is_dir) _

theorem join_childName_ne_parentMarker (p : RPath) (n : String) :
    RPath.join p (childName n) ≠ parentMarker := by
  rcases p with ⟨pa, pc⟩
  intro h
  have hc := congrArg RPath.components h
  simp only [RPath.join, childName, parentMarker] at hc
  cases pc <;> simp at hc

theorem file_name_join_childName (p : RPath) (n : String) :
    (RPath.join p (childName n)).file_name = some n := by
  show (RPath.mk p.absolute (p.components ++ [Component.normal n])).file_name
    = some n
  simp only [RPath.file_name]
  rw [List.getLast?_concat]

theorem file_name_parentMarker : parentMarker.file_name = none := rfl

theorem mem_rawEntries (fs : Fs) (D x : RPath) :
    x ∈ rawEntries fs D ↔
      ((RPath.parent D).isSome ∧ x = parentMarker) ∨
      (∃ names n, fs.read_dir D = some names ∧ n ∈ names ∧
        x = RPath.join D (childName n)) := by
  unfold rawEntries
  cases h : fs.read_dir D <;> cases hp : (RPath.parent D).isSome <;>
    simp [h, hp, eq_comm]

theorem mem_list_files (fs : Fs) (D x : RPath) :
    x ∈ list_files_in_directory fs D ↔ x ∈ rawEntries fs D :=
  (sortBy_perm _ _).mem_iff

theorem listing_elem_cases (fs : Fs) (D x : RPath)
    (hx : x ∈ list_files_in_directory fs D) :
    x = parentMarker ∨ ∃ n, x = RPath.join D (childName n) := by
  rcases (mem_rawEntries fs D x).mp ((mem_list_files fs D x).mp hx) with
    ⟨_, hm⟩ | ⟨names, n, _, _, hj⟩
  · exact Or.inl hm
  · exact Or.inr ⟨n, hj⟩

theorem parentMarker_mem_list_files (fs : Fs) (D : RPath)
    (h : (RPath.parent D).isSome) :
    parentMarker ∈ list_files_in_directory fs D :=
  (mem_list_files fs D parentMarker).mpr
    ((mem_rawEntries fs D parentMarker).mpr (Or.inl ⟨h, rfl⟩))

/-- Two sorted lists that are permutations of each other and whose
elements are pairwise antisymmetric are equal.  (The comparator is not
globally antisymmetric — two distinct paths may carry the same file
name — but it is antisymmetric on the elements of one listing.) -/
theorem eq_of_perm_of_pairwise (le : α → α → Bool) :
    ∀ l₁ l₂ : List α, List.Perm l₁ l₂ →
    l₁.Pairwise (fun a b => le a b = true) →
    l₂.Pairwise (fun a b => le a b = true) →
    (∀ a b, a ∈ l₁ → b ∈ l₂ → le a b = true → le b a = true → a = b) →
    l₁ = l₂
  | [], _, hp, _, _, _ => hp.nil_eq
  | _ :: _, [], hp, _, _, _ => absurd hp.symm.nil_eq (by simp)
  | a :: t₁, b :: t₂, hp, hs₁, hs₂, hanti => by
    have hab : a = b := by
      have hbmem : b ∈ a :: t₁ := hp.symm.subset (List.mem_cons_self b t₂)
      have hamem : a ∈ b :: t₂ := hp.subset (List.mem_cons_self a t₁)
      rcases List.mem_cons.mp hbmem with h | hbt
      · exact h.symm
      rcases List.mem_cons.mp hamem with h | hat
      · exact h
      exact hanti a b (List.mem_cons_self a t₁) (List.mem_cons_self b t₂)
        ((List.pairwise_cons.mp hs₁).1 b hbt)
        ((List.pairwise_cons.mp hs₂).1 a hat)
    subst hab
    have ht := eq_of_perm_of_pairwise le t₁ t₂ hp.cons_inv
      (List.pairwise_cons.mp hs₁).2 (List.pairwise_cons.mp hs₂).2
      (fun x y hx hy => hanti x y (List.mem_cons_of_mem _ hx)
        (List.mem_cons_of_mem _ hy))
    rw [ht]

/-- On the elements a listing can contain — the marker or a child of
`D` — the entry order is antisymmetric. -/
theorem listing_le_antisymm (d : RPath → Bool) (D a b : RPath)
    (ha : a = parentMarker ∨ ∃ n, a = RPath.join D (childName n))
    (hb : b = parentMarker ∨ ∃ n, b = RPath.join D (childName n))
    (h₁ : entryLe d a b = true) (h₂ : entryLe d b a = true) : a = b := by
  have hn := (entryLe_antisymm d a b h₁ h₂).2
  rcases ha with rfl | ⟨n, rfl⟩
  · rcases hb with rfl | ⟨m, rfl⟩
    · rfl
    · rw [file_name_parentMarker, file_name_join_childName] at hn
      exact absurd hn (by simp)
  · rcases hb with rfl | ⟨m, rfl⟩
    · rw [file_name_join_childName, file_name_parentMarker] at hn
      exact absurd hn (by simp)
    · rw [file_name_join_childName, file_name_join_childName] at hn
      injection hn with hnm
      rw [hnm]

/-- A listing depends only on the `read_dir` and `is_dir` components
of the filesystem, not on `is_file`. -/
theorem list_files_congr (fs₁ fs₂ : Fs)
    (h₁ : fs₁.read_dir = fs₂.read_dir) (h₂ : fs₁.is_dir = fs₂.is_dir) :
    list_files_in_directory fs₁ = list_files_in_directory fs₂ := by
  funext path
  unfold list_files_in_directory rawEntries
  rw [h₁, h₂]

/-! ### Reduction of the `FileClicked` branch of `update` -/

theorem update_fileClicked_snd (fs : Fs) (now : Nat) (s : FileExplorer)
    (p : RPath) :
    (update fs now s (Message.FileClicked p)).2 =
      (match s.last_click_time with
       | some last_click =>
         if now - last_click < doubleClickWindowMs && fs.is_file p then
           some p
         else none
       | none => none) := by
  simp only [update]
  split <;> rfl

theorem update_fileClicked_lct (fs : Fs) (now : Nat) (s : FileExplorer)
    (p : RPath) :
    (update fs now s (Message.FileClicked p)).1.last_click_time = some now := by
  simp only [update]
  split <;> rfl

theorem update_fileClicked_fst (fs : Fs) (now : Nat) (s : FileExplorer)
    (p : RPath) :
    (update fs now s (Message.FileClicked p)).1 =
      (if fs.is_dir (resolve p s.path) then
        { s with path := resolve p s.path, show_drives := false,
                 files := list_files_in_directory fs (resolve p s.path),
                 last_click_time := some now }
       else { s with last_click_time := some now }) := by
  simp only [update]
  split <;> rfl

/-! ### The claims -/

/-- **C4**: the target-path computation of `Message::FileClicked`
(src/main.rs lines 153-159) is pure path algebra with three ordered
cases: the parent marker resolves to the current directory's parent
(or the current directory itself when it has none); a relative name
(other than the marker) is joined onto the current directory; an
absolute target stands unchanged. -/
theorem C4_resolve_cases (target current : RPath) :
    (target = parentMarker →
      resolve target current = (RPath.parent current).getD current) ∧
    (target ≠ parentMarker → target.is_relative = true →
      resolve target current = RPath.join current target) ∧
    (target.absolute = true → resolve target current = target) := by
  refine ⟨?_, ?_, ?_⟩
  · intro h
    subst h
    cases hp : RPath.parent current <;> simp [resolve, hp]
  · intro hne hrel
    rw [resolve, if_neg hne, if_pos hrel]
  · intro habs
    have hne : target ≠ parentMarker := by
      intro h
      rw [h] at habs
      exact absurd habs (by decide)
    have hrel : ¬ target.is_relative = true := by
      simp [RPath.is_relative, habs]
    rw [resolve, if_neg hne, if_neg hrel]

/-- Witness for C4: the three cases evaluated at `/d`. -/
theorem C4_witness :
    resolve parentMarker dirD = (RPath.parent dirD).getD dirD ∧
    resolve (childName "x") dirD = RPath.join dirD (childName "x") ∧
    resolve rootPath dirD = rootPath :=
  ⟨(C4_resolve_cases parentMarker dirD).1 rfl,
   (C4_resolve_cases (childName "x") dirD).2.1 (by decide) (by decide),
   (C4_resolve_cases rootPath dirD).2.2 (by decide)⟩

/-- **C5**: when `fs::read_dir` fails (src/main.rs line 51), no error
propagates: the listing is exactly the parent marker when the
directory has a parent, and empty otherwise. -/
theorem C5_read_failure_degrades (fs : Fs) (D : RPath)
    (h : fs.read_dir D = none) :
    ((RPath.parent D).isSome = true →
      list_files_in_directory fs D = [parentMarker]) ∧
    ((RPath.parent D).isSome = false →
      list_files_in_directory fs D = []) := by
  unfold list_files_in_directory rawEntries
  rw [h]
  constructor <;> intro hp <;>
    simp [hp, sortBy, List.insertionSort, List.orderedInsert]

/-- Witness for C5: an unreadable filesystem listed at `/d` (which has
a parent) and at `/` (which has none). -/
theorem C5_witness :
    list_files_in_directory fsUnreadable dirD = [parentMarker] ∧
    list_files_in_directory fsUnreadable rootPath = [] :=
  ⟨(C5_read_failure_degrades fsUnreadable dirD rfl).1 (by decide),
   (C5_read_failure_degrades fsUnreadable rootPath rfl).2 (by decide)⟩

/-- **C6**: `Message::DriveSelected(root)` (src/main.rs lines 181-185)
unconditionally — from any state, browsing or root-selection — sets
the current directory to `root`, rebuilds the listing from `root`, and
clears `show_drives`; nothing else changes and no launch occurs. -/
theorem C6_root_selected (fs : Fs) (now : Nat) (s : FileExplorer)
    (root : RPath) :
    update fs now s (Message.DriveSelected root) =
      ({ s with path := root,
                files := list_files_in_directory fs root,
                show_drives := false }, none) := rfl

/-- **C7**: `Message::GoUp` (src/main.rs lines 171-180): with no
parent, only `show_drives` is set — current directory and listing are
untouched; with a parent, the state moves to the parent, the listing
is rebuilt there, and `show_drives` is cleared. -/
theorem C7_go_up (fs : Fs) (now : Nat) (s : FileExplorer) :
    (RPath.parent s.path = none →
      update fs now s Message.GoUp = ({ s with show_drives := true }, none)) ∧
    (∀ par, RPath.parent s.path = some par →
      update fs now s Message.GoUp =
        ({ s with path := par, show_drives := false,
                  files := list_files_in_directory fs par }, none)) := by
  constructor
  · intro h
    simp [update, h]
  · intro par h
    simp [update, h]

/-- Witness for C7: `GoUp` at the root `/` and at `/d`. -/
theorem C7_witness :
    update fsUnreadable 0 stateRoot Message.GoUp =
      ({ stateRoot with show_drives := true }, none) ∧
    update fsUnreadable 0 stateA Message.GoUp =
      ({ stateA with path := rootPath, show_drives := false,
                     files := list_files_in_directory fsUnreadable rootPath },
       none) :=
  ⟨(C7_go_up fsUnreadable 0 stateRoot).1 (by decide),
   (C7_go_up fsUnreadable 0 stateA).2 rootPath (by decide)⟩

/-- **C10**: `DriveSelected` performs no existence or is-directory
check: for every path `r` — including one that does not exist or is
not a directory — the current directory becomes `r` and the listing is
rebuilt from `r`; whereas `FileClicked` leaves the current directory
and listing unchanged whenever the resolved destination is not a
directory. -/
theorem C10_drive_selected_unchecked (fs : Fs) (now : Nat)
    (s : FileExplorer) (r p : RPath) :
    ((update fs now s (Message.DriveSelected r)).1.path = r ∧
     (update fs now s (Message.DriveSelected r)).1.files =
       list_files_in_directory fs r) ∧
    (fs.is_dir (resolve p s.path) = false →
      (update fs now s (Message.FileClicked p)).1.path = s.path ∧
      (update fs now s (Message.FileClicked p)).1.files = s.files) := by
  refine ⟨⟨rfl, rfl⟩, ?_⟩
  intro h
  rw [update_fileClicked_fst, h]
  exact ⟨rfl, rfl⟩

/-- Witness for C10: a filesystem on which nothing is a directory
still navigates on `DriveSelected` and stands still on `FileClicked`. -/
theorem C10_witness :
    ((update fsUnreadable 0 stateA (Message.DriveSelected rootPath)).1.path =
       rootPath ∧
     (update fsUnreadable 0 stateA (Message.DriveSelected rootPath)).1.files =
       list_files_in_directory fsUnreadable rootPath) ∧
    ((update fsUnreadable 0 stateA
        (Message.FileClicked (childName "x"))).1.path = stateA.path ∧
     (update fsUnreadable 0 stateA
        (Message.FileClicked (childName "x"))).1.files = stateA.files) :=
  ⟨(C10_drive_selected_unchecked fsUnreadable 0 stateA rootPath
      (childName "x")).1,
   (C10_drive_selected_unchecked fsUnreadable 0 stateA rootPath
      (childName "x")).2 (by decide)⟩

/-- **C3**: in every listing, no file precedes a directory, and any
two entries of the same kind appear in ascending `file_name` order
(the marker's `file_name` is `None`, which sorts before every name) —
for every filesystem and hence every enumeration order of the
children. -/
theorem C3_listing_ordered (fs : Fs) (D : RPath) :
    (list_files_in_directory fs D).Pairwise (fun a b =>
      (fs.is_dir a = false → fs.is_dir b = false) ∧
      (fs.is_dir a = fs.is_dir b →
        optNameCmp a.file_name b.file_name ≠ Ordering.gt)) := by
  refine (list_files_pairwise fs D).imp ?_
  intro a b hle
  rw [entryLe_iff] at hle
  cases hda : fs.is_dir a <;> cases hdb : fs.is_dir b
  · refine ⟨fun _ => rfl, fun _ hgt => ?_⟩
    exact hle (by simp [entryCmp, hda, hdb, hgt])
  · exact absurd (by simp [entryCmp, hda, hdb]) hle
  · exact ⟨fun _ => rfl, fun h => absurd h (by decide)⟩
  · refine ⟨fun h => h, fun _ hgt => ?_⟩
    exact hle (by simp [entryCmp, hda, hdb, hgt])

/-- **C2**: the click arbiter (src/main.rs lines 137-150) emits
`activate` exactly when a previous click is recorded strictly less
than 500 ms before `now`, and `select` otherwise; the click instant is
unconditionally overwritten with `now`; and within `update` the
decision depends only on the recorded instant — the clicked entry `p`
is arbitrary and no identity of the previously clicked entry exists in
the state, so a second click on a *different* entry inside the window
still activates. -/
theorem C2_click_window (last : Option Nat) (now : Nat) (fs : Fs)
    (s : FileExplorer) (p : RPath) :
    (clickArbiter last now).2 = some now ∧
    ((clickArbiter last now).1 = ClickResult.activate ↔
      ∃ t, last = some t ∧ now - t < 500) ∧
    ((clickArbiter last now).1 = ClickResult.select ↔
      ¬ ∃ t, last = some t ∧ now - t < 500) ∧
    (update fs now s (Message.FileClicked p)).1.last_click_time = some now ∧
    (update fs now s (Message.FileClicked p)).2 =
      (if (clickArbiter s.last_click_time now).1 = ClickResult.activate ∧
          fs.is_file p = true then some p else none) := by
  refine ⟨rfl, ?_, ?_, update_fileClicked_lct fs now s p, ?_⟩
  · cases last with
    | none => simp [clickArbiter]
    | some t =>
      by_cases h : now - t < 500 <;>
        simp [clickArbiter, doubleClickWindowMs, h]
  · cases last with
    | none => simp [clickArbiter]
    | some t =>
      by_cases h : now - t < 500 <;>
        simp [clickArbiter, doubleClickWindowMs, h]
  · rw [update_fileClicked_snd]
    cases hl : s.last_click_time with
    | none => simp [clickArbiter]
    | some t =>
      by_cases hw : now - t < doubleClickWindowMs <;>
        cases hf : fs.is_file p <;>
        simp [clickArbiter, hw, hf]

/-- **C8**: the external launch happens only on an `activate` signal
for a plain file: whenever `update` launches, the clicked path is a
file and a recorded click lies strictly inside the 500 ms window;
a click on the parent marker (never a plain file: `..` denotes the
working directory's parent directory, or nothing) or on a directory
entry never launches; and the navigation-state result is independent
of `is_file`, the only probe gating the launch — the launch cannot
change navigation. -/
theorem C8_launch_only_active_file (fs : Fs) (now : Nat)
    (s : FileExplorer) (p : RPath) :
    ((update fs now s (Message.FileClicked p)).2 ≠ none →
      fs.is_file p = true ∧
      (update fs now s (Message.FileClicked p)).2 = some p ∧
      ∃ t, s.last_click_time = some t ∧ now - t < 500) ∧
    (fs.is_file parentMarker = false →
      (update fs now s (Message.FileClicked parentMarker)).2 = none) ∧
    (fs.is_dir p = true → fs.is_file p = false →
      (update fs now s (Message.FileClicked p)).2 = none) ∧
    (∀ fs₂ : Fs, fs₂.read_dir = fs.read_dir → fs₂.is_dir = fs.is_dir →
      (update fs₂ now s (Message.FileClicked p)).1 =
        (update fs now s (Message.FileClicked p)).1) := by
  refine ⟨?_, ?_, ?_, ?_⟩
  · intro h
    rw [update_fileClicked_snd] at h ⊢
    cases hl : s.last_click_time with
    | none => rw [hl] at h; exact absurd rfl h
    | some t =>
      rw [hl] at h
      by_cases hw : now - t < doubleClickWindowMs
      · cases hf : fs.is_file p
        · rw [hf] at h
          simp [hw] at h
        · exact ⟨rfl, by simp [hw], t, rfl, hw⟩
      · simp [hw] at h
  · intro hf
    rw [update_fileClicked_snd]
    cases hl : s.last_click_time with
    | none => rfl
    | some t => simp [hf]
  · intro _ hf
    rw [update_fileClicked_snd]
    cases hl : s.last_click_time with
    | none => rfl
    | some t => simp [hf]
  · intro fs₂ hrd hid
    rw [update_fileClicked_fst, update_fileClicked_fst, hid,
      list_files_congr fs₂ fs hrd hid]

/-- Witness for C8: a double-click on the plain file `/d/b` launches;
clicks on the marker and on the directory `/d/sub` do not; and the
state result is unaffected by `is_file`. -/
theorem C8_witness :
    (fsMarkerDir.is_file fileB = true ∧
      (update fsMarkerDir 300 stateA (Message.FileClicked fileB)).2 =
        some fileB ∧
      ∃ t, stateA.last_click_time = some t ∧ 300 - t < 500) ∧
    (update fsMarkerDir 300 stateA (Message.FileClicked parentMarker)).2 =
      none ∧
    (update fsMarkerDir 300 stateA (Message.FileClicked subDir)).2 = none ∧
    (update fsMarkerDir 300 stateA (Message.FileClicked fileB)).1 =
      (update fsMarkerDir 300 stateA (Message.FileClicked fileB)).1 :=
  ⟨(C8_launch_only_active_file fsMarkerDir 300 stateA fileB).1 (by decide),
   (C8_launch_only_active_file fsMarkerDir 300 stateA fileB).2.1 (by decide),
   (C8_launch_only_active_file fsMarkerDir 300 stateA subDir).2.2.1
     (by decide) (by decide),
   (C8_launch_only_active_file fsMarkerDir 300 stateA fileB).2.2.2
     fsMarkerDir rfl rfl⟩

/-- **C1** as stated is false on the code: the marker is inserted
before the sort, and the sort's directories-before-files rule probes
`PathBuf::from("..").is_dir()` — a query the OS resolves against the
process working directory, not the directory being listed.  When that
probe reports `false` (e.g. the working directory has vanished, so the
metadata call fails), a real subdirectory sorts ahead of the marker:
listing `/d` (which has a parent) on `fsMarkerNotDir` puts `/d/sub`
first, not the marker. -/
theorem C1_counterexample :
    (RPath.parent dirD).isSome = true ∧
    (list_files_in_directory fsMarkerNotDir dirD).head? ≠
      some parentMarker ∧
    parentMarker ∈ list_files_in_directory fsMarkerNotDir dirD := by
  decide

/-- **C1** (amended): provided the `is_dir` probe classifies the `..`
marker as a directory — the invariable situation in practice, since
`..` designates the working directory's parent directory — the listing
of every directory with a parent has the marker as its first element;
and the listing of a directory without a parent never contains the
marker anywhere (this half unconditionally, as a real child
`dir.join(name)` can never equal `..`). -/
theorem C1_parent_marker_first (fs : Fs) (D : RPath) :
    (fs.is_dir parentMarker = true → (RPath.parent D).isSome = true →
      (list_files_in_directory fs D).head? = some parentMarker) ∧
    ((RPath.parent D).isSome = false →
      parentMarker ∉ list_files_in_directory fs D) := by
  constructor
  · intro hdir hpar
    have hmem := parentMarker_mem_list_files fs D hpar
    cases hL : list_files_in_directory fs D with
    | nil => rw [hL] at hmem; exact absurd hmem (List.not_mem_nil _)
    | cons h t =>
      rw [hL] at hmem
      rcases List.mem_cons.mp hmem with heq | hmt
      · rw [List.head?_cons, ← heq]
      · have hpw := list_files_pairwise fs D
        rw [hL] at hpw
        have hle : entryLe fs.is_dir h parentMarker = true :=
          (List.pairwise_cons.mp hpw).1 _ hmt
        have hh : h ∈ list_files_in_directory fs D := by
          rw [hL]; exact List.mem_cons_self _ _
        rcases listing_elem_cases fs D h hh with heq | ⟨n, heq⟩
        · rw [List.head?_cons, heq]
        · exfalso
          rw [entryLe_iff] at hle
          apply hle
          subst heq
          cases hjd : fs.is_dir (RPath.join D (childName n)) <;>
            simp [entryCmp, hjd, hdir, file_name_join_childName,
              file_name_parentMarker, optNameCmp]
  · intro hpar hmem
    rcases (mem_rawEntries fs D parentMarker).mp
        ((mem_list_files fs D parentMarker).mp hmem) with
      ⟨hs, _⟩ | ⟨names, n, _, _, hj⟩
    · rw [hpar] at hs
      exact absurd hs (by decide)
    · exact join_childName_ne_parentMarker D n hj.symm

/-- Witness for the amended C1: the ordinary filesystem `fsMarkerDir`
listed at `/d` (marker first) and at `/` (no marker at all). -/
theorem C1_witness :
    (list_files_in_directory fsMarkerDir dirD).head? = some parentMarker ∧
    parentMarker ∉ list_files_in_directory fsMarkerDir rootPath :=
  ⟨(C1_parent_marker_first fsMarkerDir dirD).1 (by decide) (by decide),
   (C1_parent_marker_first fsMarkerDir rootPath).2 (by decide)⟩

/-- **C9**: a listing is determined by the directory's child multiset
and the `is_dir` classification alone: two reads with no intervening
filesystem mutation — even when the underlying directory read
enumerates the same children in different orders — produce identical
sequences.  (Entries that tie under the comparator have equal names
and hence are the very same joined path, so the enumeration order
cannot leak through the stable sort.) -/
theorem C9_list_idempotent (fs₁ fs₂ : Fs) (D : RPath)
    (hdir : fs₁.is_dir = fs₂.is_dir)
    (hsome : ∀ l₁, fs₁.read_dir D = some l₁ →
      ∃ l₂, fs₂.read_dir D = some l₂ ∧ List.Perm l₁ l₂)
    (hnone : fs₁.read_dir D = none → fs₂.read_dir D = none) :
    list_files_in_directory fs₁ D = list_files_in_directory fs₂ D := by
  cases h₁ : fs₁.read_dir D with
  | none =>
    have h₂ := hnone h₁
    unfold list_files_in_directory rawEntries
    rw [h₁, h₂, hdir]
  | some l₁ =>
    obtain ⟨l₂, h₂, hperm⟩ := hsome l₁ h₁
    have hraw : List.Perm (rawEntries fs₁ D) (rawEntries fs₂ D) := by
      unfold rawEntries
      rw [h₁, h₂]
      exact List.Perm.append_left _ (hperm.map _)
    refine eq_of_perm_of_pairwise (entryLe fs₁.is_dir) _ _
      ((list_files_perm fs₁ D).trans
        (hraw.trans (list_files_perm fs₂ D).symm))
      (list_files_pairwise fs₁ D) ?_ ?_
    · have hpw := list_files_pairwise fs₂ D
      rw [← hdir] at hpw
      exact hpw
    · intro a b ha hb hle₁ hle₂
      exact listing_le_antisymm fs₁.is_dir D a b
        (listing_elem_cases fs₁ D a ha) (listing_elem_cases fs₂ D b hb)
        hle₁ hle₂

/-- Witness for C9: the same directory enumerated `b, a` and `a, b`
yields the same listing. -/
theorem C9_witness :
    list_files_in_directory fsEnum1 dirD =
      list_files_in_directory fsEnum2 dirD := by
  apply C9_list_idempotent fsEnum1 fsEnum2 dirD rfl
  · intro l₁ h
    refine ⟨["a", "b"], rfl, ?_⟩
    have hsome : some ["b", "a"] = some l₁ := h
    injection hsome with h'
    rw [← h']
    decide
  · intro h
    exact absurd h (by decide)
